import Mathlib

/-!
Verification of the sprite-atlas pipeline: the pixel extrusion filter
(tools/extrude_pixels.py) and the aseprite sheet importer
(tools/import_aseprite_sheet.py).  Machine integers are modelled as Nat
(pixel channels are 8-bit and all arithmetic here stays far below 2^8
overflow only after division, see the notes at each definition); Python
ints appearing in coordinate arithmetic that can go negative are
modelled as Int.
-/

/-! ### Pixels and images (shared by the extruder and the mask extractor) -/

/-- One RGBA pixel: four 8-bit channels.  Channel `c3` is alpha
(index 3 in the numpy buffer). -/
structure Pix where
  c0 : Nat
  c1 : Nat
  c2 : Nat
  c3 : Nat
deriving DecidableEq

def pzero : Pix := ⟨0, 0, 0, 0⟩

def padd (p q : Pix) : Pix := ⟨p.c0 + q.c0, p.c1 + q.c1, p.c2 + q.c2, p.c3 + q.c3⟩

/-- Componentwise division, truncating.  Models `new_color /= n` followed by
`.astype(np.uint8)`: the float32 sum of at most four 8-bit channel values is
at most 1020 and exactly representable, and for n in 1..4 the truncated
float32 quotient coincides with Nat division (for n = 3 the quotient is at
distance at least 1/3 from the next integer, far beyond float32 rounding). -/
def pdiv (p : Pix) (n : Nat) : Pix := ⟨p.c0 / n, p.c1 / n, p.c2 / n, p.c3 / n⟩

/-- An image buffer: `nRows x nCols` grid of RGBA pixels
(`inp_pixels[i, j, :]`). -/
structure Img where
  nRows : Nat
  nCols : Nat
  pix : Nat → Nat → Pix

/-! ### PixelExtruder (tools/extrude_pixels.py, main loop, lines 44-70) -/

/-- The 4-neighbour offsets, in source order:
`steps = ((-1, 0), (0, -1), (1, 0), (0, 1))`, each pair being `(sx, sy)`. -/
def steps : List (Int × Int) := [(-1, 0), (0, -1), (1, 0), (0, 1)]

/-- Bounds test of the source: `si < 0 or si >= n_rows` (resp. columns)
skips the neighbour. -/
def inBoundsId (img : Img) (si sj : Int) : Bool :=
  decide (0 ≤ si) && decide (si < (img.nRows : Int)) &&
    decide (0 ≤ sj) && decide (sj < (img.nCols : Int))

/-- Body of the per-pixel loop of `main`: for a pixel with zero alpha,
accumulate the channel sums and the count of in-bounds neighbours whose
alpha is positive, then divide; pixels with nonzero alpha, and transparent
pixels with no opaque neighbour, are left as in the input copy. -/
def extrudeAt (img : Img) (i j : Nat) : Pix :=
  let p := img.pix i j
  if p.c3 = 0 then
    let acc := steps.foldl
      (fun (acc : Pix × Nat) sd =>
        let si : Int := (i : Int) + sd.2
        let sj : Int := (j : Int) + sd.1
        if inBoundsId img si sj then
          let q := img.pix si.toNat sj.toNat
          if 0 < q.c3 then (padd acc.1 q, acc.2 + 1) else acc
        else acc)
      (pzero, 0)
    if acc.2 = 0 then p else pdiv acc.1 acc.2
  else p

/-- The whole single pass: `out_pixels` starts as a copy of `inp_pixels`
and every grid pixel is processed; all neighbour reads go to the input. -/
def extrude (img : Img) : Img :=
  ⟨img.nRows, img.nCols,
    fun i j => if i < img.nRows ∧ j < img.nCols then extrudeAt img i j else img.pix i j⟩

/-- Spec-side description of the extrusion neighbourhood: the list of
in-bounds 4-connected neighbours of `(i, j)` whose input alpha is
strictly positive. -/
def opaqueNbrs (img : Img) (i j : Nat) : List Pix :=
  steps.filterMap fun sd =>
    let si : Int := (i : Int) + sd.2
    let sj : Int := (j : Int) + sd.1
    if inBoundsId img si sj then
      let q := img.pix si.toNat sj.toNat
      if 0 < q.c3 then some q else none
    else none

def psum (l : List Pix) : Pix := l.foldr padd pzero

/-- Arithmetic mean of a list of pixels, each channel truncated to the
integer representation. -/
def meanPix (l : List Pix) : Pix := pdiv (psum l) l.length

/-- The pointwise contract of one extrusion pass at a grid pixel. -/
def ExtrudeSpecAt (img : Img) (i j : Nat) : Prop :=
  ((img.pix i j).c3 ≠ 0 → (extrude img).pix i j = img.pix i j) ∧
  ((img.pix i j).c3 = 0 → opaqueNbrs img i j ≠ [] →
    (extrude img).pix i j = meanPix (opaqueNbrs img i j)) ∧
  ((img.pix i j).c3 = 0 → opaqueNbrs img i j = [] →
    (extrude img).pix i j = img.pix i j) ∧
  ((img.pix i j).c3 = 0 → opaqueNbrs img i j = [] →
    ((extrude img).pix i j).c3 = 0)

lemma padd_assoc (a b c : Pix) : padd (padd a b) c = padd a (padd b c) := by
  simp [padd, Nat.add_assoc]

lemma padd_pzero (a : Pix) : padd pzero a = a := by
  simp [padd, pzero]

/-- The fold of the source loop accumulates exactly the sum and the count of
the spec-side neighbour list (generalised over an arbitrary step list). -/
lemma extrude_fold_eq (img : Img) (i j : Nat) (L : List (Int × Int)) (a : Pix) (n : Nat) :
    L.foldl
      (fun (acc : Pix × Nat) sd =>
        let si : Int := (i : Int) + sd.2
        let sj : Int := (j : Int) + sd.1
        if inBoundsId img si sj then
          let q := img.pix si.toNat sj.toNat
          if 0 < q.c3 then (padd acc.1 q, acc.2 + 1) else acc
        else acc)
      (a, n)
    = (padd a (psum (L.filterMap fun sd =>
        let si : Int := (i : Int) + sd.2
        let sj : Int := (j : Int) + sd.1
        if inBoundsId img si sj then
          let q := img.pix si.toNat sj.toNat
          if 0 < q.c3 then some q else none
        else none)),
       n + (L.filterMap fun sd =>
        let si : Int := (i : Int) + sd.2
        let sj : Int := (j : Int) + sd.1
        if inBoundsId img si sj then
          let q := img.pix si.toNat sj.toNat
          if 0 < q.c3 then some q else none
        else none).length) := by
  induction L generalizing a n with
  | nil =>
    simp [psum, padd, pzero]
  | cons sd rest ih =>
    simp only [List.foldl_cons, List.filterMap_cons]
    by_cases hb : inBoundsId img ((i : Int) + sd.2) ((j : Int) + sd.1) = true
    · by_cases hq : 0 < (img.pix ((i : Int) + sd.2).toNat ((j : Int) + sd.1).toNat).c3
      · rw [if_pos hb, if_pos hb, if_pos hq, if_pos hq, ih]
        simp only [List.filterMap_cons, psum, List.foldr_cons, List.length_cons, Prod.mk.injEq]
        refine ⟨by rw [padd_assoc], by omega⟩
      · rw [if_pos hb, if_pos hb, if_neg hq, if_neg hq, ih]
    · rw [if_neg hb, if_neg hb, ih]

/-- The source loop body, rewritten through `extrude_fold_eq`: either the
pixel is opaque and copied, or it is transparent and either has no opaque
in-bounds neighbour (copied) or gets the truncated mean. -/
lemma extrudeAt_char (img : Img) (i j : Nat) :
    extrudeAt img i j =
      if (img.pix i j).c3 = 0 then
        if (opaqueNbrs img i j).length = 0 then img.pix i j
        else meanPix (opaqueNbrs img i j)
      else img.pix i j := by
  simp only [extrudeAt]
  rw [extrude_fold_eq img i j steps pzero 0]
  simp only [opaqueNbrs, meanPix, Nat.zero_add, padd_pzero]

/-- Claim C2: one pass of the extrusion filter copies pixels with nonzero
alpha unchanged; sets each channel of a fully transparent pixel that has at
least one in-bounds opaque 4-neighbour to the truncated arithmetic mean of
those neighbours' input channels (alpha included); leaves a transparent
pixel with no such neighbour identical to the input, so in particular a
transparent pixel at distance two or more from every opaque pixel stays
transparent after the single pass. -/
theorem c2_extrude_pointwise (img : Img) (i j : Nat)
    (hi : i < img.nRows) (hj : j < img.nCols) : ExtrudeSpecAt img i j := by
  have hout : (extrude img).pix i j = extrudeAt img i j := by
    simp [extrude, hi, hj]
  rw [ExtrudeSpecAt, hout, extrudeAt_char]
  refine ⟨?_, ?_, ?_, ?_⟩
  · intro hne
    simp [hne]
  · intro hz hnb
    have hlen : (opaqueNbrs img i j).length ≠ 0 := by
      simpa [List.length_eq_zero] using hnb
    simp [hz, hlen]
  · intro hz hnb
    simp [hz, hnb]
  · intro hz hnb
    simp [hz, hnb]

/-- Demo image for the extrusion witness: one row, two columns; the left
pixel is opaque, the right pixel fully transparent. -/
def demoImg : Img :=
  ⟨1, 2, fun i j => if i = 0 ∧ j = 0 then ⟨10, 20, 30, 255⟩ else ⟨0, 0, 0, 0⟩⟩

theorem c2_witness :
    0 < demoImg.nRows ∧ 1 < demoImg.nCols ∧ ExtrudeSpecAt demoImg 0 1 :=
  ⟨by decide, by decide, c2_extrude_pointwise demoImg 0 1 (by decide) (by decide)⟩

/-! ### FrameExtractor: mask extraction
(tools/import_aseprite_sheet.py, lines 156-187) -/

/-- Per-pixel channel maximum: `image.max(-1)` collapses the channel axis. -/
def pmax4 (p : Pix) : Nat := max (max p.c0 p.c1) (max p.c2 p.c3)

/-- Intensity projection of a cropped mask region. -/
def inten (pix : Nat → Nat → Pix) : Nat → Nat → Nat := fun i j => pmax4 (pix i j)

def maxOf (l : List Nat) : Nat := l.foldr max 0

/-- `image.max(0)`: per-column maxima, one entry per column (the source's
variable `row`). -/
def maxPerCol (h w : Nat) (f : Nat → Nat → Nat) : List Nat :=
  (List.range w).map fun c => maxOf ((List.range h).map fun i => f i c)

/-- `image.max(1)`: per-row maxima, one entry per row (the source's
variable `col`). -/
def maxPerRow (h w : Nat) (f : Nat → Nat → Nat) : List Nat :=
  (List.range h).map fun i => maxOf ((List.range w).map fun c => f i c)

/-- `image.max()`: the global maximum of the region, computed as the
maximum of the per-row maxima. -/
def regionMax (h w : Nat) (f : Nat → Nat → Nat) : Nat := maxOf (maxPerRow h w f)

/-- `np.argmax` on a 1-d array: the index of the first occurrence of the
maximum value (0 on the empty array, which the source never hits). -/
def argmax : List Nat → Nat
  | [] => 0
  | v :: rest => if v < maxOf rest then argmax rest + 1 else 0

/-- A mask record's geometry; Python ints, so `Int` fields. -/
structure MaskRect where
  x : Int
  y : Int
  w : Int
  h : Int
deriving DecidableEq

/-- Mask extraction for one frame (lines 157-185): channel-collapse the
cropped region, return no record when it is all zero, otherwise take
`argmax`-based bounds, shift only the vertical bounds up by one
(`top_y += 1; bot_y += 1`; the horizontal shift is commented out in the
source), and recompute width/height after the shift. -/
def computeMask (h w : Nat) (pix : Nat → Nat → Pix) : Option MaskRect :=
  let f := inten pix
  if 0 < regionMax h w f then
    let row := maxPerCol h w f
    let col := maxPerRow h w f
    let leftX : Int := argmax row
    let topY : Int := argmax col
    let rightX : Int := (w : Int) - argmax row.reverse - 1
    let botY : Int := (h : Int) - argmax col.reverse - 1
    some ⟨leftX, topY + 1, rightX - leftX + 1, (botY + 1) - (topY + 1) + 1⟩
  else none

/-! #### maxOf and argmax facts -/

lemma maxOf_cons (v : Nat) (l : List Nat) : maxOf (v :: l) = max v (maxOf l) := rfl

lemma le_maxOf_of_mem {l : List Nat} {x : Nat} (hx : x ∈ l) : x ≤ maxOf l := by
  induction l with
  | nil => cases hx
  | cons v rest ih =>
    rcases List.mem_cons.mp hx with h | h
    · subst h; exact le_max_left _ _
    · exact le_trans (ih h) (le_max_right _ _)

lemma maxOf_mem_or_zero (l : List Nat) : maxOf l = 0 ∨ maxOf l ∈ l := by
  induction l with
  | nil => exact Or.inl rfl
  | cons v rest ih =>
    rw [maxOf_cons]
    rcases Nat.le_total v (maxOf rest) with h | h
    · rw [max_eq_right h]
      rcases ih with h0 | hm
      · exact Or.inl h0
      · exact Or.inr (List.mem_cons_of_mem _ hm)
    · rw [max_eq_left h]
      exact Or.inr (List.mem_cons_self _ _)

lemma maxOf_append (a b : List Nat) : maxOf (a ++ b) = max (maxOf a) (maxOf b) := by
  induction a with
  | nil => simp [maxOf]
  | cons v rest ih => simp [maxOf_cons, ih, Nat.max_assoc]

lemma maxOf_reverse (l : List Nat) : maxOf l.reverse = maxOf l := by
  induction l with
  | nil => rfl
  | cons v rest ih =>
    rw [List.reverse_cons, maxOf_append, ih, maxOf_cons]
    simp [maxOf, Nat.max_comm]

lemma argmax_lt_length {l : List Nat} (hl : l ≠ []) : argmax l < l.length := by
  induction l with
  | nil => cases hl rfl
  | cons v rest ih =>
    rw [argmax]
    by_cases h : v < maxOf rest
    · rw [if_pos h]
      have hne : rest ≠ [] := by
        rintro rfl
        simp [maxOf] at h
      simpa [Nat.succ_lt_succ_iff] using ih hne
    · rw [if_neg h]
      simp

lemma argmax_getD {l : List Nat} (hl : l ≠ []) : l.getD (argmax l) 0 = maxOf l := by
  induction l with
  | nil => cases hl rfl
  | cons v rest ih =>
    rw [argmax, maxOf_cons]
    by_cases h : v < maxOf rest
    · rw [if_pos h]
      have hne : rest ≠ [] := by
        rintro rfl
        simp [maxOf] at h
      have := ih hne
      simpa [max_eq_right (le_of_lt h)] using this
    · rw [if_neg h]
      simp [max_eq_left (le_of_not_lt h)]

lemma argmax_lt_of_lt {l : List Nat} {j : Nat} (hj : j < argmax l) :
    l.getD j 0 < maxOf l := by
  induction l generalizing j with
  | nil => simp [argmax] at hj
  | cons v rest ih =>
    rw [argmax] at hj
    by_cases h : v < maxOf rest
    · rw [if_pos h] at hj
      rw [maxOf_cons, max_eq_right (le_of_lt h)]
      cases j with
      | zero => simpa using h
      | succ j' =>
        have := ih (Nat.lt_of_succ_lt_succ hj)
        simpa using this
    · rw [if_neg h] at hj
      omega

lemma getD_reverse {l : List Nat} {a : Nat} (h : a < l.length) :
    l.reverse.getD a 0 = l.getD (l.length - 1 - a) 0 := by
  have h' : a < l.reverse.length := by simpa using h
  have h'' : l.length - 1 - a < l.length := by omega
  rw [List.getD_eq_getElem _ _ h', List.getD_eq_getElem _ _ h'']
  exact List.getElem_reverse ..

/-- The index `len - 1 - argmax reverse`, as the source computes
`right_x` and `bot_y` (before casting to `Int`). -/
def lastArg (l : List Nat) : Nat := l.length - 1 - argmax l.reverse

lemma lastArg_lt_length {l : List Nat} (hl : l ≠ []) : lastArg l < l.length := by
  have : 0 < l.length := List.length_pos.mpr hl
  unfold lastArg
  omega

lemma lastArg_getD {l : List Nat} (hl : l ≠ []) : l.getD (lastArg l) 0 = maxOf l := by
  have hrev : l.reverse ≠ [] := by simpa using hl
  have ha : argmax l.reverse < l.length := by
    simpa using argmax_lt_length hrev
  rw [lastArg, ← getD_reverse ha, argmax_getD hrev, maxOf_reverse]

lemma lastArg_lt_of_gt {l : List Nat} {j : Nat} (hl : l ≠ []) (h1 : lastArg l < j)
    (h2 : j < l.length) : l.getD j 0 < maxOf l := by
  have hrev : l.reverse ≠ [] := by simpa using hl
  have ha : argmax l.reverse < l.length := by
    simpa using argmax_lt_length hrev
  have hj' : l.length - 1 - j < argmax l.reverse := by
    unfold lastArg at h1
    omega
  have := argmax_lt_of_lt hj'
  rw [getD_reverse (by omega), maxOf_reverse] at this
  have hidx : l.length - 1 - (l.length - 1 - j) = j := by omega
  rwa [hidx] at this

lemma maxOf_le {l : List Nat} {m : Nat} (h : ∀ x ∈ l, x ≤ m) : maxOf l ≤ m := by
  induction l with
  | nil => simp [maxOf]
  | cons v rest ih =>
    rw [maxOf_cons]
    exact max_le (h v (List.mem_cons_self _ _)) (ih fun x hx => h x (List.mem_cons_of_mem _ hx))

/-- The maximum of the per-column maxima equals the maximum of the per-row
maxima: both are the global maximum of the region. -/
lemma maxOf_maxPerCol (h w : Nat) (f : Nat → Nat → Nat) :
    maxOf (maxPerCol h w f) = regionMax h w f := by
  rw [regionMax, maxPerCol, maxPerRow]
  apply le_antisymm
  · apply maxOf_le
    intro x hx
    obtain ⟨c, hc, rfl⟩ := List.mem_map.mp hx
    apply maxOf_le
    intro y hy
    obtain ⟨i, hi, rfl⟩ := List.mem_map.mp hy
    calc f i c ≤ maxOf ((List.range w).map fun c => f i c) :=
          le_maxOf_of_mem (List.mem_map.mpr ⟨c, hc, rfl⟩)
      _ ≤ _ := le_maxOf_of_mem (List.mem_map.mpr ⟨i, hi, rfl⟩)
  · apply maxOf_le
    intro x hx
    obtain ⟨i, hi, rfl⟩ := List.mem_map.mp hx
    apply maxOf_le
    intro y hy
    obtain ⟨c, hc, rfl⟩ := List.mem_map.mp hy
    calc f i c ≤ maxOf ((List.range h).map fun i => f i c) :=
          le_maxOf_of_mem (List.mem_map.mpr ⟨i, hi, rfl⟩)
      _ ≤ _ := le_maxOf_of_mem (List.mem_map.mpr ⟨c, hc, rfl⟩)

lemma maxPerCol_length (h w : Nat) (f : Nat → Nat → Nat) :
    (maxPerCol h w f).length = w := by simp [maxPerCol]

lemma maxPerRow_length (h w : Nat) (f : Nat → Nat → Nat) :
    (maxPerRow h w f).length = h := by simp [maxPerRow]

/-- What the produced mask geometry really is: the horizontal bounds are
the first and last *columns whose maximum attains the global maximum
intensity* (not the first/last nonzero columns), the vertical bounds are
the first and last such rows shifted down by one, and width/height are
the corresponding spans. -/
def MaskBoxChar (h w : Nat) (pix : Nat → Nat → Pix) (m : MaskRect) : Prop :=
  ∃ L R T B : Nat,
    m.x = (L : Int) ∧ m.y = (T : Int) + 1 ∧
    m.w = (R : Int) - (L : Int) + 1 ∧ m.h = (B : Int) - (T : Int) + 1 ∧
    L ≤ R ∧ R < w ∧ T ≤ B ∧ B < h ∧
    (maxPerCol h w (inten pix)).getD L 0 = regionMax h w (inten pix) ∧
    (∀ c < L, (maxPerCol h w (inten pix)).getD c 0 < regionMax h w (inten pix)) ∧
    (maxPerCol h w (inten pix)).getD R 0 = regionMax h w (inten pix) ∧
    (∀ c, R < c → c < w → (maxPerCol h w (inten pix)).getD c 0 < regionMax h w (inten pix)) ∧
    (maxPerRow h w (inten pix)).getD T 0 = regionMax h w (inten pix) ∧
    (∀ r < T, (maxPerRow h w (inten pix)).getD r 0 < regionMax h w (inten pix)) ∧
    (maxPerRow h w (inten pix)).getD B 0 = regionMax h w (inten pix) ∧
    (∀ r, B < r → r < h → (maxPerRow h w (inten pix)).getD r 0 < regionMax h w (inten pix))

lemma computeMask_none_iff (h w : Nat) (pix : Nat → Nat → Pix) :
    computeMask h w pix = none ↔ regionMax h w (inten pix) = 0 := by
  by_cases hg : 0 < regionMax h w (inten pix)
  · simp [computeMask, hg]
    omega
  · simp [computeMask, hg]
    omega

lemma computeMask_some_char {h w : Nat} {pix : Nat → Nat → Pix} {m : MaskRect}
    (hh : 1 ≤ h) (hw : 1 ≤ w) (heq : computeMask h w pix = some m) :
    MaskBoxChar h w pix m := by
  by_cases hg : 0 < regionMax h w (inten pix)
  · rw [computeMask] at heq
    simp only [hg, if_true, ite_true, Option.some.injEq] at heq
    have hrowlen : (maxPerCol h w (inten pix)).length = w := maxPerCol_length h w (inten pix)
    have hcollen : (maxPerRow h w (inten pix)).length = h := maxPerRow_length h w (inten pix)
    have hrowne : maxPerCol h w (inten pix) ≠ [] := by
      intro hc
      rw [hc] at hrowlen
      simp at hrowlen
      omega
    have hcolne : maxPerRow h w (inten pix) ≠ [] := by
      intro hc
      rw [hc] at hcollen
      simp at hcollen
      omega
    have hmaxrow : maxOf (maxPerCol h w (inten pix)) = regionMax h w (inten pix) :=
      maxOf_maxPerCol h w (inten pix)
    have hmaxcol : maxOf (maxPerRow h w (inten pix)) = regionMax h w (inten pix) := rfl
    subst heq
    refine ⟨argmax (maxPerCol h w (inten pix)), lastArg (maxPerCol h w (inten pix)),
      argmax (maxPerRow h w (inten pix)), lastArg (maxPerRow h w (inten pix)),
      ?_, ?_, ?_, ?_, ?_, ?_, ?_, ?_, ?_, ?_, ?_, ?_, ?_, ?_, ?_, ?_⟩
    · rfl
    · rfl
    · show (w : Int) - (argmax (maxPerCol h w (inten pix)).reverse : Int) - 1 -
          (argmax (maxPerCol h w (inten pix)) : Int) + 1 =
        (lastArg (maxPerCol h w (inten pix)) : Int) -
          (argmax (maxPerCol h w (inten pix)) : Int) + 1
      have hne : (maxPerCol h w (inten pix)).reverse ≠ [] := by simpa using hrowne
      have harow := argmax_lt_length hne
      rw [List.length_reverse, hrowlen] at harow
      have hlr : lastArg (maxPerCol h w (inten pix)) =
          w - 1 - argmax (maxPerCol h w (inten pix)).reverse := by
        rw [lastArg, hrowlen]
      rw [hlr]
      omega
    · show (h : Int) - (argmax (maxPerRow h w (inten pix)).reverse : Int) - 1 + 1 -
          ((argmax (maxPerRow h w (inten pix)) : Int) + 1) + 1 =
        (lastArg (maxPerRow h w (inten pix)) : Int) -
          (argmax (maxPerRow h w (inten pix)) : Int) + 1
      have hne : (maxPerRow h w (inten pix)).reverse ≠ [] := by simpa using hcolne
      have hacol := argmax_lt_length hne
      rw [List.length_reverse, hcollen] at hacol
      have hlc : lastArg (maxPerRow h w (inten pix)) =
          h - 1 - argmax (maxPerRow h w (inten pix)).reverse := by
        rw [lastArg, hcollen]
      rw [hlc]
      omega
    · by_contra hlt
      push_neg at hlt
      have h1 := argmax_lt_of_lt hlt
      have h2 := lastArg_getD hrowne
      omega
    · have := lastArg_lt_length hrowne
      omega
    · by_contra hlt
      push_neg at hlt
      have h1 := argmax_lt_of_lt hlt
      have h2 := lastArg_getD hcolne
      omega
    · have := lastArg_lt_length hcolne
      omega
    · rw [← hmaxrow]
      exact argmax_getD hrowne
    · intro c hc
      rw [← hmaxrow]
      exact argmax_lt_of_lt hc
    · rw [← hmaxrow]
      exact lastArg_getD hrowne
    · intro c hc1 hc2
      rw [← hmaxrow]
      exact lastArg_lt_of_gt hrowne hc1 (by omega)
    · rw [← hmaxcol]
      exact argmax_getD hcolne
    · intro r hr
      rw [← hmaxcol]
      exact argmax_lt_of_lt hr
    · rw [← hmaxcol]
      exact lastArg_getD hcolne
    · intro r hr1 hr2
      rw [← hmaxcol]
      exact lastArg_lt_of_gt hcolne hr1 (by omega)
  · exfalso
    have hn : computeMask h w pix = none := by
      rw [computeMask]
      simp only [hg, if_false, ite_false]
    rw [hn] at heq
    cases heq

/-- The amended mask contract: a record is produced exactly when the region
maximum is positive, and its geometry is the maximal-intensity bounding box
with the vertical-only +1 shift. -/
def MaskSpecAmended (h w : Nat) (pix : Nat → Nat → Pix) : Prop :=
  (computeMask h w pix = none ↔ regionMax h w (inten pix) = 0) ∧
  ∀ m, computeMask h w pix = some m → MaskBoxChar h w pix m

/-- Claim C6 (amended): for a nonempty mask region, no record is produced
iff the channel-collapsed region is all zero; a produced record's bounds are
the first and last columns and rows whose max-projection attains the global
maximum intensity (not the first/last nonzero ones), the vertical bounds are
shifted by +1 with no horizontal shift, and width/height are recomputed
after that shift. -/
theorem c6_maxbox_char (h w : Nat) (pix : Nat → Nat → Pix)
    (hh : 1 ≤ h) (hw : 1 ≤ w) : MaskSpecAmended h w pix :=
  ⟨computeMask_none_iff h w pix, fun _ hm => computeMask_some_char hh hw hm⟩

/-- The spec's reading of the horizontal bound: the leftmost column of the
region whose max-projection is nonzero. -/
def leftmostNonzeroCol (h w : Nat) (pix : Nat → Nat → Pix) : Nat :=
  (maxPerCol h w (inten pix)).findIdx fun v => v != 0

/-- Mask-region demo refuting the claim's "leftmost nonzero column" reading:
one row, two columns with intensities 5 and 9. -/
def demoMaskPix : Nat → Nat → Pix :=
  fun _ j => if j = 0 then ⟨5, 0, 0, 0⟩ else ⟨9, 0, 0, 0⟩

/-- Counterexample to claim C6 as stated: on the region with intensities
`[5, 9]` the leftmost nonzero column is 0, but the produced mask's left
bound is 1 (`np.argmax` returns the first occurrence of the *maximum*, not
of the first nonzero entry), so the mask is not the tight bounding box of
nonzero values. -/
theorem c6_counterexample :
    computeMask 1 2 demoMaskPix = some ⟨1, 1, 1, 1⟩ ∧
      leftmostNonzeroCol 1 2 demoMaskPix = 0 ∧
      ((1 : Int) ≠ ((0 : Nat) : Int)) := by
  refine ⟨by decide, by decide, by decide⟩

theorem c6_witness : MaskSpecAmended 1 2 demoMaskPix :=
  c6_maxbox_char 1 2 demoMaskPix (by decide) (by decide)

/-- Claim C10's content as a predicate over one mask region. -/
def MaskPositive (h w : Nat) (pix : Nat → Nat → Pix) : Prop :=
  (regionMax h w (inten pix) = 0 → computeMask h w pix = none) ∧
  ∀ m, computeMask h w pix = some m → 1 ≤ m.w ∧ 1 ≤ m.h ∧ 1 ≤ m.y

/-- Claim C10: every produced mask record has width and height at least 1
and top coordinate at least 1 (the vertical +1 shift), and an all-zero
region produces no record rather than a zero-sized one. -/
theorem c10_mask_positive (h w : Nat) (pix : Nat → Nat → Pix)
    (hh : 1 ≤ h) (hw : 1 ≤ w) : MaskPositive h w pix := by
  refine ⟨fun hz => (computeMask_none_iff h w pix).mpr hz, fun m hm => ?_⟩
  obtain ⟨L, R, T, B, hx, hy, hwq, hhq, hLR, hRw, hTB, hBh, _⟩ :=
    computeMask_some_char hh hw hm
  refine ⟨?_, ?_, ?_⟩
  · rw [hwq]; omega
  · rw [hhq]; omega
  · rw [hy]; omega

/-- All-opaque single-pixel mask region for the C10 witness. -/
def demoMaskPix10 : Nat → Nat → Pix := fun _ _ => ⟨0, 0, 0, 7⟩

theorem c10_witness : MaskPositive 1 1 demoMaskPix10 :=
  c10_mask_positive 1 1 demoMaskPix10 (by decide) (by decide)

/-! ### FrameExtractor: sprite expansion and ManifestBuilder un-padding
(tools/import_aseprite_sheet.py, lines 140-155 and 49-70) -/

/-- Normalised start of a Python/numpy basic slice index on an axis of
length `n`: negative indices wrap from the end and everything clamps to
`[0, n]`. -/
def sliceStart (n : Nat) (a : Int) : Nat :=
  if a < 0 then ((n : Int) + a).toNat else min a.toNat n

/-- Length of the slice `[a:b]` on an axis of length `n` (step 1). -/
def sliceLen (n : Nat) (a b : Int) : Nat := sliceStart n b - sliceStart n a

/-- Frame expansion before cropping (lines 143-146):
`x -= 1; y -= 1; w += 2; h += 2`, on Python ints. -/
def expandFrame (x y w h : Nat) : Int × Int × Int × Int :=
  ((x : Int) - 1, (y : Int) - 1, (w : Int) + 2, (h : Int) + 2)

/-- Shape of `sheet[y : y + h, x : x + w, :]`: rows then columns. -/
def cropShape (sheetH sheetW : Nat) (x y w h : Int) : Nat × Nat :=
  (sliceLen sheetH y (y + h), sliceLen sheetW x (x + w))

/-- `Sprite.to_meta` (lines 49-70): un-extrude the placed sprite by adding
1 to the top-left and subtracting 2 from each image dimension. -/
def spriteToMeta (tlx tly imgW imgH : Nat) : Int × Int × Int × Int :=
  ((tlx : Int) + 1, (tly : Int) + 1, (imgW : Int) - 2, (imgH : Int) - 2)

/-- The padding round trip for one authored rectangle: expanding, cropping
and un-padding yields a record of exactly the authored size whose position
is the placed top-left shifted by (+1, +1). -/
def SpriteRoundTrip (sheetW sheetH x y w h tlx tly : Nat) : Prop :=
  spriteToMeta tlx tly
      (cropShape sheetH sheetW (expandFrame x y w h).1 (expandFrame x y w h).2.1
        (expandFrame x y w h).2.2.1 (expandFrame x y w h).2.2.2).2
      (cropShape sheetH sheetW (expandFrame x y w h).1 (expandFrame x y w h).2.1
        (expandFrame x y w h).2.2.1 (expandFrame x y w h).2.2.2).1
    = ((tlx : Int) + 1, (tly : Int) + 1, (w : Int), (h : Int))

/-- Claim C5: for an authored rectangle whose 1-pixel expansion stays on
the source sheet (the extrusion contract), extraction expands by one pixel
per side, and manifest emission un-pads by (+1, +1, -2, -2), so the emitted
record has exactly the authored width and height and sits at the placed
top-left shifted by (+1, +1). -/
theorem c5_roundtrip (sheetW sheetH x y w h tlx tly : Nat)
    (hx : 1 ≤ x) (hy : 1 ≤ y)
    (hxw : x + w + 1 ≤ sheetW) (hyh : y + h + 1 ≤ sheetH) :
    SpriteRoundTrip sheetW sheetH x y w h tlx tly := by
  unfold SpriteRoundTrip cropShape expandFrame spriteToMeta sliceLen sliceStart
  have h1 : ¬ ((x : Int) - 1 < 0) := by omega
  have h2 : ¬ ((y : Int) - 1 < 0) := by omega
  have h3 : ¬ ((x : Int) - 1 + ((w : Int) + 2) < 0) := by omega
  have h4 : ¬ ((y : Int) - 1 + ((h : Int) + 2) < 0) := by omega
  simp only [h1, h2, h3, h4, if_false, ite_false, Prod.mk.injEq]
  refine ⟨trivial, trivial, ?_, ?_⟩
  · have e1 : ((x : Int) - 1 + ((w : Int) + 2)).toNat = x + w + 1 := by omega
    have e2 : ((x : Int) - 1).toNat = x - 1 := by omega
    rw [e1, e2, min_eq_left (by omega), min_eq_left (by omega)]
    omega
  · have e1 : ((y : Int) - 1 + ((h : Int) + 2)).toNat = y + h + 1 := by omega
    have e2 : ((y : Int) - 1).toNat = y - 1 := by omega
    rw [e1, e2, min_eq_left (by omega), min_eq_left (by omega)]
    omega

theorem c5_witness :
    1 ≤ 1 ∧ 1 ≤ 2 ∧ 1 + 3 + 1 ≤ 6 ∧ 2 + 4 + 1 ≤ 7 ∧ SpriteRoundTrip 6 7 1 2 3 4 4 5 :=
  ⟨by decide, by decide, by decide, by decide,
    c5_roundtrip 6 7 1 2 3 4 4 5 (by decide) (by decide) (by decide) (by decide)⟩

/-! ### FrameExtractor: layer-name validation and run abort
(tools/import_aseprite_sheet.py, lines 120-189) -/

/-- One frame descriptor, as delivered by the external manifest parser:
`{sprite_base_name}.{layer_name}.{tag}.{frame_index}` plus the authored
rectangle. -/
structure FrameDesc where
  baseName : String
  layerName : String
  tag : String
  frameIdx : Nat
  rx : Nat
  ry : Nat
  rw : Nat
  rh : Nat

/-- The exact message of the `ValueError` raised on an invalid layer name
(lines 132-136). -/
def invalidLayerMsg (ln : String) : String :=
  "Layer name: " ++ ln ++ " is not valid. The layer name should be `sprite` " ++
    "(which represents the actual sprite) or start with `mask_`."

/-- Python's `str.startswith`, modelled on the character sequence (Python
strings are character-, not byte-indexed). -/
def strStartsWith (s p : String) : Bool := p.data.isPrefixOf s.data

/-- `re.sub(r"^mask_", "", layer_name)` when the name is mask-prefixed:
drop the five prefix characters. -/
def strDrop (s : String) (n : Nat) : String := ⟨s.data.drop n⟩

/-- Classification of one frame (lines 127-155): a `mask_`-prefixed layer is
stripped (and, mirroring the source's rebinding, a stripped name equal to
`sprite` falls into the sprite branch); a layer that is neither mask-prefixed
nor exactly `sprite` raises; a sprite frame contributes its expanded
dimensions `(w + 2, h + 2)` to the packing input. -/
def processFrame (f : FrameDesc) : Except String (Option (Nat × Nat)) :=
  if strStartsWith f.layerName "mask_" then
    let stripped := strDrop f.layerName 5
    if stripped = "sprite" then Except.ok (some (f.rw + 2, f.rh + 2))
    else Except.ok none
  else if f.layerName ≠ "sprite" then Except.error (invalidLayerMsg f.layerName)
  else Except.ok (some (f.rw + 2, f.rh + 2))

/-- Extraction over all frames, in order, aborting on the first invalid
layer name: no later frame is examined and nothing is packed. -/
def extractAll : List FrameDesc → Except String (List (Nat × Nat))
  | [] => Except.ok []
  | f :: rest =>
    match processFrame f with
    | Except.error e => Except.error e
    | Except.ok none => extractAll rest
    | Except.ok (some s) => (extractAll rest).map (fun l => s :: l)

/-- A layer name the importer accepts. -/
def ValidLayer (ln : String) : Prop := strStartsWith ln "mask_" = true ∨ ln = "sprite"

/-- Claim C9: if some frame's layer name is neither the sprite marker nor
mask-prefixed, extraction fails with the error message naming the first
offending layer, before any sprite list (and hence any packing input) is
produced. -/
theorem c9_invalid_layer_aborts (pre : List FrameDesc) (bad : FrameDesc)
    (post : List FrameDesc)
    (hpre : ∀ f ∈ pre, ValidLayer f.layerName)
    (h1 : strStartsWith bad.layerName "mask_" = false)
    (h2 : bad.layerName ≠ "sprite") :
    extractAll (pre ++ bad :: post) = Except.error (invalidLayerMsg bad.layerName) := by
  induction pre with
  | nil =>
    rw [List.nil_append, extractAll, processFrame]
    rw [h1]
    simp [h2]
  | cons f rest ih =>
    have hf := hpre f (List.mem_cons_self _ _)
    have hrest : ∀ g ∈ rest, ValidLayer g.layerName :=
      fun g hg => hpre g (List.mem_cons_of_mem _ hg)
    have htail := ih hrest
    rcases hf with hm | hs
    · by_cases hstr : strDrop f.layerName 5 = "sprite"
      · rw [List.cons_append, extractAll, processFrame, hm]
        simp only [if_true, ite_true, hstr]
        rw [htail]
        rfl
      · rw [List.cons_append, extractAll, processFrame, hm]
        simp only [if_true, ite_true, hstr, if_false, ite_false]
        exact htail
    · have hnm : strStartsWith f.layerName "mask_" = false := by
        rw [hs]
        decide
      rw [List.cons_append, extractAll, processFrame, hnm]
      simp only [Bool.false_eq_true, if_false, ite_false, hs, ne_eq, not_true_eq_false]
      rw [htail]
      rfl

/-- Frames for the C9 witness: one valid sprite frame, then a frame on a
layer named `background`. -/
def demoFrameOk : FrameDesc := ⟨"hero", "sprite", "", 0, 3, 4, 5, 6⟩

def demoFrameBad : FrameDesc := ⟨"hero", "background", "", 1, 0, 0, 2, 2⟩

theorem c9_witness :
    extractAll ([demoFrameOk] ++ demoFrameBad :: []) =
      Except.error (invalidLayerMsg "background") :=
  c9_invalid_layer_aborts [demoFrameOk] demoFrameBad []
    (by
      intro f hf
      simp only [List.mem_singleton] at hf
      subst hf
      exact Or.inr rfl)
    (by decide) (by decide)

/-! ### AtlasPacker (tools/import_aseprite_sheet.py, lines 193-239) -/

/-- The width and height of one extracted sprite image. -/
structure SpriteDims where
  w : Nat
  h : Nat
deriving DecidableEq

/-- One placement: the assigned top-left plus the sprite's dimensions. -/
structure Placement where
  x : Nat
  y : Nat
  w : Nat
  h : Nat
deriving DecidableEq

/-- The packer's working state: canvas height/width (`sheet.shape[0]`,
`sheet.shape[1]`), the occupancy plane (`sheet[..., -1]`, row then column;
positions never written hold `false`, matching the zero fill), the ordered
candidate list `tls_to_try`, and the placements in placement order. -/
structure PackState where
  H : Nat
  W : Nat
  occ : Nat → Nat → Bool
  cands : List (Nat × Nat)
  placed : List Placement

/-- `sheet[min_y:max_y, min_x:max_x, -1].max() == 0`: every occupancy cell
of the footprint is free. -/
def footprintFree (occ : Nat → Nat → Bool) (x y w h : Nat) : Bool :=
  (List.range h).all fun dy => (List.range w).all fun dx => !occ (y + dy) (x + dx)

/-- The candidate test of lines 209-213: `sheet.shape[1] > max_x and
sheet.shape[0] > max_y and <footprint free>` (note the strict
inequalities). -/
def fitsAt (st : PackState) (s : SpriteDims) (t : Nat × Nat) : Bool :=
  decide (t.1 + s.w < st.W) && decide (t.2 + s.h < st.H) &&
    footprintFree st.occ t.1 t.2 s.w s.h

/-- The scan of lines 205-215 followed by `tls_to_try.pop(best_tl_idx)`:
return the first candidate satisfying `p` together with the list with that
candidate removed. -/
def scanPop (p : Nat × Nat → Bool) : List (Nat × Nat) → Option ((Nat × Nat) × List (Nat × Nat))
  | [] => none
  | c :: rest =>
    if p c then some (c, rest)
    else (scanPop p rest).map fun r => (r.1, c :: r.2)

/-- Occupancy marking of line 236: set the footprint to 1. -/
def markOcc (occ : Nat → Nat → Bool) (x y w h : Nat) : Nat → Nat → Bool :=
  fun r c =>
    occ r c ||
      (decide (y ≤ r) && decide (r < y + h) && decide (x ≤ c) && decide (c < x + w))

/-- Canvas growth of lines 217-227: a fresh zero canvas of size
`(H + sprite.h, W + sprite.w)` with the old content copied to the top-left
(the occupancy function is unchanged: unwritten cells are `false` on both
sides). -/
def growCanvas (st : PackState) (s : SpriteDims) : PackState :=
  { st with H := st.H + s.h, W := st.W + s.w }

/-- A successful placement (lines 229-237): pop the chosen candidate, mark
the footprint occupied, and append the two neighbour candidates of
`get_neighbor_tls` — below with a one-pixel gap, then right with a
one-pixel gap. -/
def placeAt (st : PackState) (s : SpriteDims) (t : Nat × Nat)
    (rest : List (Nat × Nat)) : PackState :=
  { H := st.H, W := st.W,
    occ := markOcc st.occ t.1 t.2 s.w s.h,
    cands := rest ++ [(t.1, t.2 + s.h + 1), (t.1 + s.w + 1, t.2)],
    placed := st.placed ++ [⟨t.1, t.2, s.w, s.h⟩] }

/-- The `while best_tl_idx is None` loop for one sprite, with explicit
fuel: scan the candidates, and if nothing fits grow the canvas and rescan. -/
def tryPlace : Nat → PackState → SpriteDims → Option PackState
  | 0, _, _ => none
  | fuel + 1, st, s =>
    match scanPop (fitsAt st s) st.cands with
    | some (t, rest) => some (placeAt st s t rest)
    | none => tryPlace fuel (growCanvas st s) s

/-- The outer `for sprite in flat_sprites` loop: place each sprite in list
order. -/
def packAll (fuel : Nat) : PackState → List SpriteDims → Option PackState
  | st, [] => some st
  | st, s :: rest =>
    match tryPlace fuel st s with
    | none => none
    | some st2 => packAll fuel st2 rest

/-- Initial state (lines 198-200): an empty canvas
(`np.zeros((0, 0, 5))`) and the single candidate `(0, 0)`. -/
def initState : PackState :=
  { H := 0, W := 0, occ := fun _ _ => false, cands := [(0, 0)], placed := [] }

/-- `n`-fold canvas growth for one sprite. -/
def growN (st : PackState) (s : SpriteDims) : Nat → PackState
  | 0 => st
  | n + 1 => growCanvas (growN st s n) s

/-- Membership of a cell (row `r`, column `c`) in a placement's footprint
`[x, x + w) x [y, y + h)`. -/
def InFoot (p : Placement) (r c : Nat) : Prop :=
  p.y ≤ r ∧ r < p.y + p.h ∧ p.x ≤ c ∧ c < p.x + p.w

/-- The dead sort of line 194-196: `sorted(range(n), key=lambda i:
-flat_sprites[i].image.size)`, a stable descending-area sort of the sprite
indices.  (`image.size` is `h * w * channels`; the constant positive
channel factor does not affect the ordering.)  The packing loop never uses
this list. -/
def areaOf (l : List SpriteDims) (i : Nat) : Nat :=
  (l.getD i ⟨0, 0⟩).w * (l.getD i ⟨0, 0⟩).h

/-- Stable insertion for the descending-area order: index `i` goes after
every already-placed index of area at least `areaOf l i`. -/
def insertByArea (l : List SpriteDims) (i : Nat) : List Nat → List Nat
  | [] => [i]
  | j :: rest =>
    if areaOf l i ≤ areaOf l j then j :: insertByArea l i rest
    else i :: j :: rest

/-- The stable descending-area index order of line 194 (Python `sorted` is
a stable sort). -/
def sortedInds (l : List SpriteDims) : List Nat :=
  (List.range l.length).foldl (fun acc i => insertByArea l i acc) []

/-! #### Packer lemmas -/

lemma scanPop_some {p : Nat × Nat → Bool} {l : List (Nat × Nat)} {t : Nat × Nat}
    {rest : List (Nat × Nat)} (h : scanPop p l = some (t, rest)) :
    p t = true ∧ ∃ pre post, l = pre ++ t :: post ∧ rest = pre ++ post ∧
      ∀ a ∈ pre, p a = false := by
  induction l generalizing rest with
  | nil => cases h
  | cons c l2 ih =>
    rw [scanPop] at h
    by_cases hc : p c = true
    · rw [if_pos hc] at h
      cases h
      exact ⟨hc, [], l2, rfl, rfl, by simp⟩
    · rw [if_neg hc] at h
      obtain ⟨r2, hr2, heq⟩ := Option.map_eq_some'.mp h
      obtain ⟨rfl, rfl⟩ : t = r2.1 ∧ rest = c :: r2.2 := by
        cases heq
        exact ⟨rfl, rfl⟩
      obtain ⟨hp, pre, post, h1, h2, h3⟩ := ih (by rw [hr2])
      refine ⟨hp, c :: pre, post, by simp [h1], by simp [h2], ?_⟩
      intro a ha
      rcases List.mem_cons.mp ha with rfl | ha
      · simpa using hc
      · exact h3 a ha

lemma scanPop_none {p : Nat × Nat → Bool} {l : List (Nat × Nat)}
    (h : scanPop p l = none) : ∀ a ∈ l, p a = false := by
  induction l with
  | nil => simp
  | cons c l2 ih =>
    rw [scanPop] at h
    by_cases hc : p c = true
    · rw [if_pos hc] at h
      cases h
    · rw [if_neg hc] at h
      intro a ha
      rcases List.mem_cons.mp ha with rfl | ha
      · simpa using hc
      · exact ih (by simpa using h) a ha

lemma scanPop_isSome_of_exists {p : Nat × Nat → Bool} {l : List (Nat × Nat)}
    (h : ∃ a ∈ l, p a = true) : ∃ t rest, scanPop p l = some (t, rest) := by
  cases hs : scanPop p l with
  | none =>
    obtain ⟨a, ha, hp⟩ := h
    have := scanPop_none hs a ha
    rw [hp] at this
    cases this
  | some r =>
    obtain ⟨t, rest⟩ := r
    exact ⟨t, rest, rfl⟩

lemma footprintFree_iff (occ : Nat → Nat → Bool) (x y w h : Nat) :
    footprintFree occ x y w h = true ↔
      ∀ r c, y ≤ r → r < y + h → x ≤ c → c < x + w → occ r c = false := by
  rw [footprintFree]
  simp only [List.all_eq_true, List.mem_range, Bool.not_eq_true']
  constructor
  · intro hf r c h1 h2 h3 h4
    have h5 := hf (r - y) (by omega) (c - x) (by omega)
    have hr : y + (r - y) = r := by omega
    have hc : x + (c - x) = c := by omega
    rwa [hr, hc] at h5
  · intro hf dy hdy dx hdx
    exact hf (y + dy) (x + dx) (by omega) (by omega) (by omega) (by omega)

lemma markOcc_iff (occ : Nat → Nat → Bool) (x y w h r c : Nat) :
    markOcc occ x y w h r c = true ↔
      occ r c = true ∨ (y ≤ r ∧ r < y + h ∧ x ≤ c ∧ c < x + w) := by
  simp [markOcc, and_assoc]

lemma growN_W (st : PackState) (s : SpriteDims) (n : Nat) :
    (growN st s n).W = st.W + n * s.w := by
  induction n with
  | zero => simp [growN]
  | succ n ih =>
    show (growN st s n).W + s.w = st.W + (n + 1) * s.w
    rw [ih]
    ring

lemma growN_H (st : PackState) (s : SpriteDims) (n : Nat) :
    (growN st s n).H = st.H + n * s.h := by
  induction n with
  | zero => simp [growN]
  | succ n ih =>
    show (growN st s n).H + s.h = st.H + (n + 1) * s.h
    rw [ih]
    ring

lemma growN_occ (st : PackState) (s : SpriteDims) (n : Nat) :
    (growN st s n).occ = st.occ := by
  induction n with
  | zero => rfl
  | succ n ih =>
    show (growN st s n).occ = st.occ
    exact ih

lemma growN_cands (st : PackState) (s : SpriteDims) (n : Nat) :
    (growN st s n).cands = st.cands := by
  induction n with
  | zero => rfl
  | succ n ih =>
    show (growN st s n).cands = st.cands
    exact ih

lemma growN_placed (st : PackState) (s : SpriteDims) (n : Nat) :
    (growN st s n).placed = st.placed := by
  induction n with
  | zero => rfl
  | succ n ih =>
    show (growN st s n).placed = st.placed
    exact ih

lemma growN_comm (st : PackState) (s : SpriteDims) (n : Nat) :
    growN (growCanvas st s) s n = growN st s (n + 1) := by
  induction n with
  | zero => rfl
  | succ n ih =>
    show growCanvas (growN (growCanvas st s) s n) s = growCanvas (growN st s (n + 1)) s
    rw [ih]

lemma tryPlace_succ_scan_some {fuel : Nat} {st : PackState} {s : SpriteDims}
    {t : Nat × Nat} {rest : List (Nat × Nat)}
    (h : scanPop (fitsAt st s) st.cands = some (t, rest)) :
    tryPlace (fuel + 1) st s = some (placeAt st s t rest) := by
  rw [tryPlace, h]

lemma tryPlace_succ_scan_none {fuel : Nat} {st : PackState} {s : SpriteDims}
    (h : scanPop (fitsAt st s) st.cands = none) :
    tryPlace (fuel + 1) st s = tryPlace fuel (growCanvas st s) s := by
  rw [tryPlace, h]

lemma tryPlace_some {fuel : Nat} {st st2 : PackState} {s : SpriteDims}
    (h : tryPlace fuel st s = some st2) :
    ∃ n t rest, scanPop (fitsAt (growN st s n) s) st.cands = some (t, rest) ∧
      st2 = placeAt (growN st s n) s t rest ∧
      ∀ m < n, scanPop (fitsAt (growN st s m) s) st.cands = none := by
  induction fuel generalizing st with
  | zero => cases h
  | succ fuel ih =>
    cases hscan : scanPop (fitsAt st s) st.cands with
    | some r =>
      rw [tryPlace_succ_scan_some (by rw [hscan])] at h
      refine ⟨0, r.1, r.2, by simpa using hscan, ?_, by omega⟩
      cases h
      rfl
    | none =>
      rw [tryPlace_succ_scan_none hscan] at h
      obtain ⟨n, t, rest, h1, h2, h3⟩ := ih h
      rw [growN_comm] at h1 h2
      refine ⟨n + 1, t, rest, h1, h2, ?_⟩
      intro m hm
      cases m with
      | zero => exact hscan
      | succ m2 =>
        have h4 := h3 m2 (by omega)
        rwa [growN_comm] at h4

/-! #### Packer invariants -/

/-- The occupancy plane holds 1 exactly on the union of the placed
footprints. -/
def OccMatches (st : PackState) : Prop :=
  ∀ r c, st.occ r c = true ↔ ∃ p ∈ st.placed, InFoot p r c

/-- Every candidate lies within the (closed) canvas bounds. -/
def CandsBounded (st : PackState) : Prop :=
  ∀ t ∈ st.cands, t.1 ≤ st.W ∧ t.2 ≤ st.H

/-- Some candidate sits strictly below every occupied row. -/
def FreeRowCand (st : PackState) : Prop :=
  ∃ t ∈ st.cands, ∀ r c, st.occ r c = true → r < t.2

/-- The placed footprints are pairwise disjoint. -/
def PlacedDisjoint (st : PackState) : Prop :=
  st.placed.Pairwise fun p q => ∀ r c, ¬(InFoot p r c ∧ InFoot q r c)

def PackInv (st : PackState) : Prop :=
  OccMatches st ∧ CandsBounded st ∧ FreeRowCand st ∧ PlacedDisjoint st

lemma packInv_init : PackInv initState := by
  refine ⟨?_, ?_, ?_, ?_⟩
  · intro r c
    simp [initState]
  · intro t ht
    simp only [initState, List.mem_singleton] at ht
    subst ht
    exact ⟨Nat.zero_le _, Nat.zero_le _⟩
  · refine ⟨(0, 0), by simp [initState], ?_⟩
    intro r c hocc
    simp [initState] at hocc
  · simp [initState, PlacedDisjoint]

lemma packInv_grow {st : PackState} {s : SpriteDims} (h : PackInv st) :
    PackInv (growCanvas st s) := by
  obtain ⟨h1, h2, h3, h4⟩ := h
  refine ⟨h1, ?_, h3, h4⟩
  intro t ht
  have := h2 t ht
  show t.1 ≤ st.W + s.w ∧ t.2 ≤ st.H + s.h
  omega

lemma packInv_growN {st : PackState} {s : SpriteDims} (h : PackInv st) (n : Nat) :
    PackInv (growN st s n) := by
  induction n with
  | zero => exact h
  | succ n ih => exact packInv_grow ih

lemma packInv_place {st : PackState} {s : SpriteDims} {t : Nat × Nat}
    {rest : List (Nat × Nat)} (hInv : PackInv st)
    (hscan : scanPop (fitsAt st s) st.cands = some (t, rest)) :
    PackInv (placeAt st s t rest) := by
  obtain ⟨hOcc, hCB, hFR, hPD⟩ := hInv
  obtain ⟨hfit, pre, post, hl, hr, hpre⟩ := scanPop_some hscan
  simp only [fitsAt, Bool.and_eq_true, decide_eq_true_eq] at hfit
  obtain ⟨⟨hxW, hyH⟩, hfree⟩ := hfit
  have hfree2 := (footprintFree_iff st.occ t.1 t.2 s.w s.h).mp hfree
  have hmem_rest : ∀ u ∈ rest, u ∈ st.cands := by
    intro u hu
    rw [hl]
    rw [hr] at hu
    rcases List.mem_append.mp hu with h | h
    · exact List.mem_append.mpr (Or.inl h)
    · exact List.mem_append.mpr (Or.inr (List.mem_cons_of_mem _ h))
  have hcands_split : ∀ u ∈ st.cands, u = t ∨ u ∈ rest := by
    intro u hu
    rw [hl] at hu
    rw [hr]
    rcases List.mem_append.mp hu with h | h
    · exact Or.inr (List.mem_append.mpr (Or.inl h))
    · rcases List.mem_cons.mp h with h | h
      · exact Or.inl h
      · exact Or.inr (List.mem_append.mpr (Or.inr h))
  refine ⟨?_, ?_, ?_, ?_⟩
  · intro r c
    show markOcc st.occ t.1 t.2 s.w s.h r c = true ↔
      ∃ p ∈ st.placed ++ [(⟨t.1, t.2, s.w, s.h⟩ : Placement)], InFoot p r c
    rw [markOcc_iff]
    constructor
    · rintro (hin | hnew)
      · obtain ⟨p, hp, hf⟩ := (hOcc r c).mp hin
        exact ⟨p, List.mem_append.mpr (Or.inl hp), hf⟩
      · refine ⟨⟨t.1, t.2, s.w, s.h⟩,
          List.mem_append.mpr (Or.inr (List.mem_singleton.mpr rfl)), ?_⟩
        exact ⟨hnew.1, hnew.2.1, hnew.2.2.1, hnew.2.2.2⟩
    · rintro ⟨p, hp, hf⟩
      rcases List.mem_append.mp hp with hp | hp
      · exact Or.inl ((hOcc r c).mpr ⟨p, hp, hf⟩)
      · rw [List.mem_singleton] at hp
        subst hp
        exact Or.inr ⟨hf.1, hf.2.1, hf.2.2.1, hf.2.2.2⟩
  · intro u hu
    show u.1 ≤ st.W ∧ u.2 ≤ st.H
    rcases List.mem_append.mp hu with hu | hu
    · exact hCB u (hmem_rest u hu)
    · rcases List.mem_cons.mp hu with rfl | hu
      · constructor <;> [omega; skip]
        show t.2 + s.h + 1 ≤ st.H
        omega
      · rw [List.mem_singleton] at hu
        subst hu
        constructor
        · show t.1 + s.w + 1 ≤ st.W
          omega
        · omega
  · obtain ⟨u, hu, hrow⟩ := hFR
    rcases hcands_split u hu with rfl | hu_rest
    · refine ⟨(u.1, u.2 + s.h + 1), ?_, ?_⟩
      · exact List.mem_append.mpr (Or.inr (List.mem_cons_self _ _))
      · intro r c hocc
        rcases (markOcc_iff st.occ u.1 u.2 s.w s.h r c).mp hocc with hold | hrect
        · have := hrow r c hold
          show r < u.2 + s.h + 1
          omega
        · show r < u.2 + s.h + 1
          omega
    · by_cases hcase : t.2 + s.h ≤ u.2
      · refine ⟨u, List.mem_append.mpr (Or.inl hu_rest), ?_⟩
        intro r c hocc
        rcases (markOcc_iff st.occ t.1 t.2 s.w s.h r c).mp hocc with hold | hrect
        · exact hrow r c hold
        · omega
      · refine ⟨(t.1, t.2 + s.h + 1), ?_, ?_⟩
        · exact List.mem_append.mpr (Or.inr (List.mem_cons_self _ _))
        · intro r c hocc
          rcases (markOcc_iff st.occ t.1 t.2 s.w s.h r c).mp hocc with hold | hrect
          · have := hrow r c hold
            show r < t.2 + s.h + 1
            omega
          · show r < t.2 + s.h + 1
            omega
  · show (st.placed ++ [(⟨t.1, t.2, s.w, s.h⟩ : Placement)]).Pairwise _
    rw [List.pairwise_append]
    refine ⟨hPD, by simp, ?_⟩
    intro p hp q hq
    rw [List.mem_singleton] at hq
    subst hq
    rintro r c ⟨hfp, hfq⟩
    have h1 : st.occ r c = true := (hOcc r c).mpr ⟨p, hp, hfp⟩
    have h2 : st.occ r c = false :=
      hfree2 r c hfq.1 hfq.2.1 hfq.2.2.1 hfq.2.2.2
    rw [h1] at h2
    cases h2

/-- After two growth steps for a sprite with positive dimensions, the
below-everything candidate fits. -/
lemma fits_after_two {st : PackState} {s : SpriteDims} (hInv : PackInv st)
    (hw : 1 ≤ s.w) (hh : 1 ≤ s.h) :
    ∃ t ∈ st.cands, fitsAt (growN st s 2) s t = true := by
  obtain ⟨t, ht, hrow⟩ := hInv.2.2.1
  obtain ⟨hbx, hby⟩ := hInv.2.1 t ht
  refine ⟨t, ht, ?_⟩
  simp only [fitsAt, Bool.and_eq_true, decide_eq_true_eq]
  refine ⟨⟨?_, ?_⟩, ?_⟩
  · rw [growN_W]
    have : 2 * s.w = s.w + s.w := by ring
    omega
  · rw [growN_H]
    have : 2 * s.h = s.h + s.h := by ring
    omega
  · rw [growN_occ]
    rw [footprintFree_iff]
    intro r c h1 h2 h3 h4
    cases hocc : st.occ r c with
    | false => rfl
    | true =>
      have := hrow r c hocc
      omega

/-- If some candidate fits after `k` growth steps and the fuel exceeds `k`,
the placement loop succeeds. -/
lemma tryPlace_succeeds_of_fits {st : PackState} {s : SpriteDims} (k fuel : Nat)
    (hk : k < fuel)
    (hscan : ∃ t rest, scanPop (fitsAt (growN st s k) s) st.cands = some (t, rest)) :
    ∃ st2, tryPlace fuel st s = some st2 := by
  induction fuel generalizing st k with
  | zero => omega
  | succ fuel ih =>
    cases h0 : scanPop (fitsAt st s) st.cands with
    | some r =>
      exact ⟨placeAt st s r.1 r.2, tryPlace_succ_scan_some (by rw [h0])⟩
    | none =>
      obtain ⟨t, rest, hs⟩ := hscan
      cases k with
      | zero =>
        rw [show growN st s 0 = st from rfl, h0] at hs
        cases hs
      | succ k2 =>
        rw [tryPlace_succ_scan_none h0]
        refine ih k2 (by omega) ?_
        refine ⟨t, rest, ?_⟩
        rw [growN_comm]
        exact hs

/-- With fuel 3, every sprite with positive dimensions gets placed from any
state satisfying the invariants. -/
lemma tryPlace_three {st : PackState} {s : SpriteDims} (hInv : PackInv st)
    (hw : 1 ≤ s.w) (hh : 1 ≤ s.h) : ∃ st2, tryPlace 3 st s = some st2 :=
  tryPlace_succeeds_of_fits 2 3 (by omega)
    (scanPop_isSome_of_exists (fits_after_two hInv hw hh))

lemma packInv_tryPlace {fuel : Nat} {st st2 : PackState} {s : SpriteDims}
    (hInv : PackInv st) (h : tryPlace fuel st s = some st2) : PackInv st2 := by
  obtain ⟨n, t, rest, h1, h2, h3⟩ := tryPlace_some h
  subst h2
  refine packInv_place (packInv_growN hInv n) ?_
  rw [growN_cands]
  exact h1

/-- A successful placement grows each canvas dimension by at most twice the
sprite's dimension: the loop never needs more than two growth steps. -/
lemma tryPlace_growth_bound {fuel : Nat} {st st2 : PackState} {s : SpriteDims}
    (hInv : PackInv st) (hw : 1 ≤ s.w) (hh : 1 ≤ s.h)
    (h : tryPlace fuel st s = some st2) :
    st2.W ≤ st.W + 2 * s.w ∧ st2.H ≤ st.H + 2 * s.h := by
  obtain ⟨n, t, rest, h1, h2, h3⟩ := tryPlace_some h
  have hn : n ≤ 2 := by
    by_contra hgt
    push_neg at hgt
    have hnone := h3 2 (by omega)
    obtain ⟨tt, htt, hfit⟩ := fits_after_two hInv hw hh
    have hfalse := scanPop_none hnone tt htt
    rw [hfit] at hfalse
    cases hfalse
  subst h2
  have e1 : (placeAt (growN st s n) s t rest).W = (growN st s n).W := rfl
  have e2 : (placeAt (growN st s n) s t rest).H = (growN st s n).H := rfl
  rw [e1, e2, growN_W, growN_H]
  have b1 : n * s.w ≤ 2 * s.w := Nat.mul_le_mul_right _ hn
  have b2 : n * s.h ≤ 2 * s.h := Nat.mul_le_mul_right _ hn
  omega

lemma packInv_packAll {fuel : Nat} {st st2 : PackState} {l : List SpriteDims}
    (hInv : PackInv st) (h : packAll fuel st l = some st2) : PackInv st2 := by
  induction l generalizing st with
  | nil =>
    cases h
    exact hInv
  | cons s rest ih =>
    rw [packAll] at h
    cases htp : tryPlace fuel st s with
    | none =>
      rw [htp] at h
      cases h
    | some st3 =>
      rw [htp] at h
      exact ih (packInv_tryPlace hInv htp) h

lemma packAll_succeeds {st : PackState} {l : List SpriteDims} (hInv : PackInv st)
    (hl : ∀ s ∈ l, 1 ≤ s.w ∧ 1 ≤ s.h) : ∃ st2, packAll 3 st l = some st2 := by
  induction l generalizing st with
  | nil => exact ⟨st, rfl⟩
  | cons s rest ih =>
    obtain ⟨st3, htp⟩ := tryPlace_three hInv (hl s (List.mem_cons_self _ _)).1
      (hl s (List.mem_cons_self _ _)).2
    obtain ⟨st2, h2⟩ := ih (packInv_tryPlace hInv htp)
      (fun u hu => hl u (List.mem_cons_of_mem _ hu))
    refine ⟨st2, ?_⟩
    rw [packAll, htp]
    exact h2

/-- Sum of the sprite widths. -/
def sumW (l : List SpriteDims) : Nat := (l.map fun s => s.w).sum

/-- Sum of the sprite heights. -/
def sumH (l : List SpriteDims) : Nat := (l.map fun s => s.h).sum

lemma packAll_bound {fuel : Nat} {st st2 : PackState} {l : List SpriteDims}
    (hInv : PackInv st) (hl : ∀ s ∈ l, 1 ≤ s.w ∧ 1 ≤ s.h)
    (h : packAll fuel st l = some st2) :
    st2.W ≤ st.W + 2 * sumW l ∧ st2.H ≤ st.H + 2 * sumH l := by
  induction l generalizing st with
  | nil =>
    cases h
    simp [sumW, sumH]
  | cons s rest ih =>
    rw [packAll] at h
    cases htp : tryPlace fuel st s with
    | none =>
      rw [htp] at h
      cases h
    | some st3 =>
      rw [htp] at h
      have hb := tryPlace_growth_bound hInv (hl s (List.mem_cons_self _ _)).1
        (hl s (List.mem_cons_self _ _)).2 htp
      have hrec := ih (packInv_tryPlace hInv htp)
        (fun u hu => hl u (List.mem_cons_of_mem _ hu)) h
      have e1 : sumW (s :: rest) = s.w + sumW rest := by simp [sumW]
      have e2 : sumH (s :: rest) = s.h + sumH rest := by simp [sumH]
      rw [e1, e2]
      omega

/-! #### Packer claim theorems -/

/-- Claim C1: in every state the packer can reach (any run from the initial
state), the placed footprints `[x, x + w) x [y, y + h)` are pairwise
disjoint: the occupancy plane is checked to be all zero over a footprint
before placement and marked right after, so no two distinct placed sprites
share a cell. -/
theorem c1_packed_footprints_disjoint (fuel : Nat) (l : List SpriteDims)
    (st2 : PackState) (h : packAll fuel initState l = some st2) :
    st2.placed.Pairwise fun p q => ∀ r c, ¬(InFoot p r c ∧ InFoot q r c) :=
  (packInv_packAll packInv_init h).2.2.2

theorem c1_witness :
    ∃ st2, packAll 5 initState [⟨1, 1⟩, ⟨2, 2⟩] = some st2 ∧
      st2.placed.Pairwise fun p q => ∀ r c, ¬(InFoot p r c ∧ InFoot q r c) :=
  ⟨_, rfl, c1_packed_footprints_disjoint 5 [⟨1, 1⟩, ⟨2, 2⟩] _ rfl⟩

/-- Claim C3 (the code against its own dead sort): on the extraction order
`[1x1, 2x2]` the sorted index list of line 194 is `[1, 0]` — the 2x2 sprite
has the larger area and should go first — yet the packing loop iterates
`flat_sprites` directly, so the first placed sprite is the 1x1 one, not the
sprite with the largest area. -/
theorem c3_sort_unused_smallest_first :
    sortedInds [⟨1, 1⟩, ⟨2, 2⟩] = [1, 0] ∧
    (packAll 5 initState [⟨1, 1⟩, ⟨2, 2⟩]).map
        (fun st2 => st2.placed.map fun p => (p.w, p.h)) = some [(1, 1), (2, 2)] ∧
    areaOf [⟨1, 1⟩, ⟨2, 2⟩] 0 < areaOf [⟨1, 1⟩, ⟨2, 2⟩] 1 := by
  refine ⟨by decide, by decide, by decide⟩

/-- What the candidate scan actually guarantees for the selected candidate:
strict bounds (`cx + w < W` and `cy + h < H`) plus a free footprint, and
every earlier candidate fails the same test. -/
def ScanSelectsFirstStrictFit (st : PackState) (s : SpriteDims) (t : Nat × Nat)
    (rest : List (Nat × Nat)) : Prop :=
  (t.1 + s.w < st.W ∧ t.2 + s.h < st.H ∧
    ∀ r c, t.2 ≤ r → r < t.2 + s.h → t.1 ≤ c → c < t.1 + s.w →
      st.occ r c = false) ∧
  ∃ pre post, st.cands = pre ++ t :: post ∧ rest = pre ++ post ∧
    ∀ u ∈ pre, fitsAt st s u = false

/-- Claim C4 (amended): the packer selects the first candidate in list
order whose footprint lies *strictly* inside the canvas — `cx + w < W` and
`cy + h < H` — and is free; a candidate whose footprint ends exactly at the
right or bottom canvas edge does not qualify. -/
theorem c4_first_strict_fit (st : PackState) (s : SpriteDims) (t : Nat × Nat)
    (rest : List (Nat × Nat))
    (h : scanPop (fitsAt st s) st.cands = some (t, rest)) :
    ScanSelectsFirstStrictFit st s t rest := by
  obtain ⟨hp, pre, post, h1, h2, h3⟩ := scanPop_some h
  refine ⟨?_, pre, post, h1, h2, h3⟩
  simp only [fitsAt, Bool.and_eq_true, decide_eq_true_eq] at hp
  exact ⟨hp.1.1, hp.1.2, (footprintFree_iff st.occ t.1 t.2 s.w s.h).mp hp.2⟩

theorem c4_witness :
    ScanSelectsFirstStrictFit (growN initState ⟨1, 1⟩ 2) ⟨1, 1⟩ (0, 0) [] :=
  c4_first_strict_fit (growN initState ⟨1, 1⟩ 2) ⟨1, 1⟩ (0, 0) [] rfl

/-- The claim's own candidate test: the footprint `[cx, cx+w) x [cy, cy+h)`
lies within the canvas (so ending exactly at an edge qualifies) and the
occupancy there is all zero.  Definition follows the spec's words, for
comparison with `fitsAt`. -/
def specInBoundsFree (st : PackState) (s : SpriteDims) (t : Nat × Nat) : Bool :=
  decide (t.1 + s.w ≤ st.W) && decide (t.2 + s.h ≤ st.H) &&
    footprintFree st.occ t.1 t.2 s.w s.h

/-- Counterexample to claim C4 as stated: after the first growth for a 2x2
sprite the canvas is exactly 2x2 and the candidate (0, 0) has its footprint
fully inside the canvas (ending exactly at both edges) and free, yet the
scan of the code selects nothing — the strict `>` bounds check rejects
edge-exact footprints. -/
theorem c4_counterexample :
    specInBoundsFree (growN initState ⟨2, 2⟩ 1) ⟨2, 2⟩ (0, 0) = true ∧
      (0, 0) ∈ (growN initState ⟨2, 2⟩ 1).cands ∧
      scanPop (fitsAt (growN initState ⟨2, 2⟩ 1) ⟨2, 2⟩)
        (growN initState ⟨2, 2⟩ 1).cands = none :=
  ⟨by decide, by decide, by decide⟩

/-- Claim C7: the canvas grows by exactly the current sprite's width and
height whenever no candidate admits it, and for every sprite list with
positive dimensions the packing loop terminates with every sprite placed —
in fact fuel 3 per sprite (at most two growth steps) always suffices. -/
theorem c7_termination :
    (∀ (st : PackState) (s : SpriteDims),
      (growCanvas st s).W = st.W + s.w ∧ (growCanvas st s).H = st.H + s.h) ∧
    ∀ l : List SpriteDims, (∀ s ∈ l, 1 ≤ s.w ∧ 1 ≤ s.h) →
      ∃ st2, packAll 3 initState l = some st2 :=
  ⟨fun _ _ => ⟨rfl, rfl⟩, fun _ hl => packAll_succeeds packInv_init hl⟩

theorem c7_witness : ∃ st2, packAll 3 initState [⟨2, 2⟩, ⟨1, 1⟩] = some st2 :=
  c7_termination.2 [⟨2, 2⟩, ⟨1, 1⟩] (by decide)

/-- Counterexample to claim C8 as stated: packing the single 2x2 sprite
grows the canvas twice (the strict bounds check rejects the exactly-fitting
2x2 canvas), ending at 4x4, which exceeds the claimed bound of the sprite
widths plus one gap pixel per placement (2 + 1 = 3). -/
theorem c8_counterexample :
    (packAll 3 initState [⟨2, 2⟩]).map (fun st2 => (st2.W, st2.H)) = some (4, 4) ∧
      sumW [⟨2, 2⟩] + 1 < 4 ∧ sumH [⟨2, 2⟩] + 1 < 4 :=
  ⟨by decide, by decide, by decide⟩

/-- Claim C8 (amended): for sprites with positive dimensions, every
successful run from the initial state ends with canvas width at most twice
the sum of the sprite widths and height at most twice the sum of the sprite
heights (each sprite triggers at most two growth steps). -/
theorem c8_canvas_bound (fuel : Nat) (l : List SpriteDims) (st2 : PackState)
    (hl : ∀ s ∈ l, 1 ≤ s.w ∧ 1 ≤ s.h)
    (h : packAll fuel initState l = some st2) :
    st2.W ≤ 2 * sumW l ∧ st2.H ≤ 2 * sumH l := by
  have hb := packAll_bound packInv_init hl h
  have e1 : initState.W = 0 := rfl
  have e2 : initState.H = 0 := rfl
  omega

theorem c8_witness :
    ∃ st2, packAll 3 initState [⟨2, 2⟩] = some st2 ∧
      st2.W ≤ 2 * sumW [⟨2, 2⟩] ∧ st2.H ≤ 2 * sumH [⟨2, 2⟩] :=
  ⟨_, rfl, c8_canvas_bound 3 [⟨2, 2⟩] _ (by decide) rfl⟩
